import Mathlib

/-!
Verification of the message-framing and response-aggregation protocol engine of
the isabelle-client repository.

The development shallowly embeds the two snapshots of the protocol code:

* the current package (files under isabelle_client/): IsabelleResponse,
  get_response_from_isabelle and get_final_message from
  isabelle_client/socket_communication.py and IsabelleClient.execute_command
  from isabelle_client/isabelle__client.py;
* the newer snapshot (files under src/isabelle_client/): the typed data model
  (IsabelleResponseType and the pydantic IsabelleResponse) from
  src/isabelle_client/data_models.py and the reader and loop from
  src/isabelle_client/socket_communication.py.  Those embeddings carry a V2
  suffix to keep names distinct.

Modelling conventions:

* A TCP byte stream is modelled as a list of characters, one character per
  byte.  The claims under consideration concern valid, essentially ASCII
  protocol text, where UTF-8 bytes and decoded characters are in bijection;
  invalid-UTF-8 byte sequences (whose decoding would raise UnicodeDecodeError)
  are outside the model.
* asyncio.StreamReader.readline returns bytes up to and including the first
  line feed, or everything remaining at end of stream;
  asyncio.StreamReader.readexactly n returns exactly n bytes or raises
  IncompleteReadError.  Exceptions are modelled with Except / Option.
* The Python regular expressions are compiled to their exact semantics on the
  inputs the code feeds them: re.match anchors at the start only, the dot does
  not match a line feed, and the word / digit classes are taken at their ASCII
  core (the protocol tokens are ASCII).
* The asynchronous generator get_final_message is modelled as a function
  returning the list of all frames it yields; a read failure makes the whole
  run fail, exactly as an exception thrown to the consuming async-for does.
  The while loop is executed on fuel and run with fuel (stream length + 1),
  which is proved sufficient below (each iteration consumes at least one byte).
-/

/-- A TCP byte stream, one character per byte (see the header comment). -/
abbrev ByteStream := List Char

/-- asyncio readline: bytes up to and including the first line feed, or all
remaining bytes at end of stream.  Returns the line and the rest of the
stream. -/
def readline : ByteStream → List Char × ByteStream
  | [] => ([], [])
  | c :: rest =>
    if c = '\n' then ([c], rest)
    else
      let lr := readline rest
      (c :: lr.1, lr.2)

/-- asyncio readexactly: exactly n bytes, or none (IncompleteReadError) when
the stream ends first. -/
def readexactly (n : Nat) (s : ByteStream) : Option (List Char × ByteStream) :=
  if n ≤ s.length then some (s.take n, s.drop n) else none

/-- The ASCII core of the regex word class (letters, digits, underscore). -/
def isWordChar (c : Char) : Bool := c.isAlphanum || c = '_'

/-- Decimal value of a digit string, as Python int() computes it (leading
zeros allowed). -/
def digitsToNat (ds : List Char) : Nat :=
  ds.foldl (fun acc c => 10 * acc + (c.toNat - '0'.toNat)) 0

/-- re.compile(r"(\d+)\n").match(line): succeeds exactly when the line starts
with one or more digits followed immediately by a line feed, returning the
decimal value.  As readline output contains a line feed only at its end, a
successful match means the whole line is a length-prefix line. -/
def length_prefix_match (line : List Char) : Option Nat :=
  let digits := line.takeWhile Char.isDigit
  if digits.isEmpty then none
  else if (line.drop digits.length).head? = some '\n' then
    some (digitsToNat digits)
  else none

/-- re.compile("(\\w+) ?(.*)").match(content): the kind is the maximal leading
word-character run (the match fails when it is empty), then one space is
consumed when present, and the body is the remainder up to the first line feed
(the dot does not match a line feed). -/
def parse_content (content : List Char) : Option (String × String) :=
  let kind := content.takeWhile isWordChar
  if kind.isEmpty then none
  else
    let rest := content.drop kind.length
    let rest2 := if rest.head? = some ' ' then rest.tail else rest
    some (String.mk kind, String.mk (rest2.takeWhile (fun c => c != '\n')))

/-- IsabelleResponse of isabelle_client/socket_communication.py: response
type word, body text, and the optional length read from a length-prefix
line. -/
structure IsabelleResponse where
  response_type : String
  response_body : String
  response_length : Option Nat := none
deriving DecidableEq

/-- IsabelleResponse.__str__: optional length line, then the type, a single
space when the body is non-empty, then the body. -/
def IsabelleResponse.str (r : IsabelleResponse) : String :=
  (match r.response_length with
   | some n => toString n ++ "\n"
   | none => "")
  ++ r.response_type
  ++ (if r.response_body ≠ "" then " " else "")
  ++ r.response_body

/-- Failure modes of the frame reader: the ValueError raised on content that
does not match the kind/body pattern (carrying the offending raw content), the
IncompleteReadError raised by readexactly when the stream closes before the
declared length is available, and fuel exhaustion of the modelled
while loop (proved unreachable at the fuel get_final_message uses). -/
inductive ReadError where
  | unexpectedResponse (response : String)
  | incompleteRead (expected : Nat)
  | fuelOut
deriving DecidableEq

/-- get_response_from_isabelle of isabelle_client/socket_communication.py:
read one line; if it is a length-prefix line read exactly that many bytes as
the frame content, otherwise the line itself is the content; then split the
content into kind and body. -/
def get_response_from_isabelle (s : ByteStream) :
    Except ReadError (IsabelleResponse × ByteStream) :=
  let lr := readline s
  match length_prefix_match lr.1 with
  | some n =>
    match readexactly n lr.2 with
    | none => .error (.incompleteRead n)
    | some pr =>
      match parse_content pr.1 with
      | none => .error (.unexpectedResponse (String.mk pr.1))
      | some kb => .ok (⟨kb.1, kb.2, some n⟩, pr.2)
  | none =>
    match parse_content lr.1 with
    | none => .error (.unexpectedResponse (String.mk lr.1))
    | some kb => .ok (⟨kb.1, kb.2, none⟩, lr.2)

/-- The while loop of get_final_message of
isabelle_client/socket_communication.py, with the state the Python code keeps:
the previous response type (seeded with the empty string by
IsabelleResponse("", "")) and the password_ok_received flag.  The loop runs
while the previous type is not final or the flag is unset; at the top of each
iteration the flag is set when the previous type is OK; then one frame is read
and yielded.  The returned list is the full sequence of yielded frames. -/
def get_final_message_from (final : List String) :
    Nat → String → Bool → ByteStream → Except ReadError (List IsabelleResponse)
  | 0, _, _, _ => .error .fuelOut
  | fuel + 1, prev, okr, s =>
    if prev ∈ final ∧ okr = true then .ok []
    else
      match get_response_from_isabelle s with
      | .error e => .error e
      | .ok rs =>
        match get_final_message_from final fuel rs.1.response_type
            (okr || (prev == "OK")) rs.2 with
        | .error e => .error e
        | .ok rest => .ok (rs.1 :: rest)

/-- get_final_message of isabelle_client/socket_communication.py, run with
sufficient fuel (each loop iteration consumes at least one byte of the
stream, see get_response_ok_length). -/
def get_final_message (final : List String) (s : ByteStream) :
    Except ReadError (List IsabelleResponse) :=
  get_final_message_from final (s.length + 1) "" false s

/-- The condition under which the frame reader fails: the decoded frame
content does not match the kind/body pattern, or a declared length prefix is
followed by fewer bytes than declared before stream closure. -/
def malformed_or_short (s : ByteStream) : Prop :=
  match length_prefix_match (readline s).1 with
  | some n =>
    (readline s).2.length < n ∨ parse_content (((readline s).2).take n) = none
  | none => parse_content (readline s).1 = none

/-- IsabelleClient of isabelle_client/isabelle__client.py (the fields
execute_command uses). -/
structure IsabelleClient where
  address : String
  port : Nat
  password : String

/-- The TypeError that Python raises when an async generator object appears
in an await expression.  get_final_message of
isabelle_client/socket_communication.py is an async generator (it contains
yield and is typed AsyncGenerator), and IsabelleClient.execute_command of
isabelle_client/isabelle__client.py does
response = await get_final_message(...), so that await raises this
unconditionally. -/
inductive PyTypeError where
  | asyncGeneratorAwaited
deriving DecidableEq

/-- The observable outcome of IsabelleClient.execute_command: the bytes
written to the connection, the selected final message set, and the outcome of
the await of get_final_message on the server's reply stream. -/
structure ExecuteCommandResult where
  written : String
  final_message : List String
  response : Except PyTypeError (List IsabelleResponse)

/-- IsabelleClient.execute_command of isabelle_client/isabelle__client.py:
select the final message set from the asynchronous flag, open one connection,
write password, line feed, command, line feed, and then evaluate
response = await get_final_message(reader, final_message, self.logger).
In this source tree get_final_message is an async generator, so the await
raises TypeError before a single frame is read: the session-protocol loop is
never run, the server_reply stream is never consumed, and no response is
returned. -/
def execute_command (client : IsabelleClient) (command : String)
    (asynchronous : Bool) (_server_reply : ByteStream) : ExecuteCommandResult :=
  let final_message :=
    if asynchronous then ["FINISHED", "FAILED", "ERROR"] else ["OK", "ERROR"]
  let command_line := client.password ++ "\n" ++ command ++ "\n"
  { written := command_line
    final_message := final_message
    response := .error .asyncGeneratorAwaited }

/-- IsabelleResponseType of src/isabelle_client/data_models.py: the closed
enumeration of response type tokens. -/
inductive IsabelleResponseType where
  | OK
  | FINISHED
  | NOTE
  | FAILED
  | ERROR
deriving DecidableEq

/-- The .value string of each IsabelleResponseType member. -/
def IsabelleResponseType.value : IsabelleResponseType → String
  | .OK => "OK"
  | .FINISHED => "FINISHED"
  | .NOTE => "NOTE"
  | .FAILED => "FAILED"
  | .ERROR => "ERROR"

/-- The enum constructor IsabelleResponseType(token): the member whose value
is the token, or none for the ValueError raised on any other token. -/
def IsabelleResponseType.fromString (s : String) : Option IsabelleResponseType :=
  if s = "OK" then some .OK
  else if s = "FINISHED" then some .FINISHED
  else if s = "NOTE" then some .NOTE
  else if s = "FAILED" then some .FAILED
  else if s = "ERROR" then some .ERROR
  else none

/-- A JSON value, the result type of the Python standard library json.loads
call made by the newer reader. -/
inductive JVal where
  | null
  | bool (b : Bool)
  | num (n : Int)
  | str (s : String)
  | arr (elems : List JVal)
  | obj (fields : List (String × JVal))

/-- The response_body field of the newer IsabelleResponse
(src/isabelle_client/data_models.py types it Any): either the raw string the
reader passes through for an empty body, or a decoded JSON value. -/
inductive ResponseBody where
  | raw (s : String)
  | json (v : JVal)

/-- IsabelleResponse of src/isabelle_client/data_models.py: typed response
kind, Any-typed body, optional length. -/
structure IsabelleResponseV2 where
  response_type : IsabelleResponseType
  response_body : ResponseBody
  response_length : Option Nat := none

/-- Failure modes of the newer frame reader: the ValueError raised on content
not matching the kind/body pattern, the ValueError raised by the
IsabelleResponseType constructor on an unknown token, the JSONDecodeError
raised by json.loads, and the IncompleteReadError of readexactly. -/
inductive ReadErrorV2 where
  | unexpectedResponse (response : String)
  | unknownResponseType (token : String)
  | jsonDecodeError (body : String)
  | incompleteRead (expected : Nat)

/-- get_response_from_isabelle of src/isabelle_client/socket_communication.py:
the same framing as the current reader, then the kind token is forced through
the IsabelleResponseType enum (ValueError on any other token) and a non-empty
body is decoded with json.loads (JSONDecodeError propagates; there is no
fallback to the raw string).  The json.loads call is passed in as jloads,
none modelling JSONDecodeError. -/
def get_response_from_isabelle_v2 (jloads : String → Option JVal)
    (s : ByteStream) : Except ReadErrorV2 (IsabelleResponseV2 × ByteStream) :=
  let lr := readline s
  let handle : List Char → ByteStream → Option Nat →
      Except ReadErrorV2 (IsabelleResponseV2 × ByteStream) :=
    fun content s2 length =>
      match parse_content content with
      | none => .error (.unexpectedResponse (String.mk content))
      | some kb =>
        match IsabelleResponseType.fromString kb.1 with
        | none => .error (.unknownResponseType kb.1)
        | some t =>
          if kb.2 = "" then .ok (⟨t, .raw kb.2, length⟩, s2)
          else
            match jloads kb.2 with
            | none => .error (.jsonDecodeError kb.2)
            | some v => .ok (⟨t, .json v, length⟩, s2)
  match length_prefix_match lr.1 with
  | some n =>
    match readexactly n lr.2 with
    | none => .error (.incompleteRead n)
    | some pr => handle pr.1 pr.2 (some n)
  | none => handle lr.1 lr.2 none

/-- Model of the Python standard library json.loads on the JSON fragment this
development exercises: whitespace, null, booleans, integers, strings with
single-character escapes, arrays and objects; none models JSONDecodeError.
Numbers are modelled without fractions or exponents and without the
leading-zero restriction, a divergence only on inputs no theorem below
touches. -/
def json_unescape (e : Char) : Char :=
  if e = 'n' then '\n'
  else if e = 't' then '\t'
  else if e = 'r' then '\r'
  else if e = 'b' then (Char.ofNat 8)
  else if e = 'f' then (Char.ofNat 12)
  else e

/-- String contents after an opening quote: the decoded characters and the
remainder after the closing quote, or none when the string never closes. -/
def parse_json_string : List Char → Option (List Char × List Char)
  | [] => none
  | '"' :: rest => some ([], rest)
  | '\\' :: e :: rest =>
    (parse_json_string rest).map (fun p => (json_unescape e :: p.1, p.2))
  | ['\\'] => none
  | c :: rest => (parse_json_string rest).map (fun p => (c :: p.1, p.2))

/-- JSON whitespace. -/
def skip_json_spaces (cs : List Char) : List Char :=
  cs.dropWhile (fun c => c = ' ' || c = '\t' || c = '\n' || c = '\r')

mutual

/-- One JSON value and the remainder, fuelled. -/
def parse_json_value : Nat → List Char → Option (JVal × List Char)
  | 0, _ => none
  | fuel + 1, cs =>
    match skip_json_spaces cs with
    | 'n' :: 'u' :: 'l' :: 'l' :: r => some (.null, r)
    | 't' :: 'r' :: 'u' :: 'e' :: r => some (.bool true, r)
    | 'f' :: 'a' :: 'l' :: 's' :: 'e' :: r => some (.bool false, r)
    | '"' :: r => (parse_json_string r).map (fun p => (.str (String.mk p.1), p.2))
    | '[' :: r =>
      (match skip_json_spaces r with
       | ']' :: r2 => some (.arr [], r2)
       | _ => (parse_json_elems fuel r).map (fun p => (.arr p.1, p.2)))
    | '{' :: r =>
      (match skip_json_spaces r with
       | '}' :: r2 => some (.obj [], r2)
       | _ => (parse_json_fields fuel r).map (fun p => (.obj p.1, p.2)))
    | '-' :: r =>
      let ds := r.takeWhile Char.isDigit
      if ds.isEmpty then none
      else some (.num (-(digitsToNat ds : Int)), r.drop ds.length)
    | c :: r =>
      if c.isDigit then
        let ds := (c :: r).takeWhile Char.isDigit
        some (.num (digitsToNat ds : Int), (c :: r).drop ds.length)
      else none
    | [] => none

/-- Comma-separated JSON values up to a closing bracket, fuelled. -/
def parse_json_elems : Nat → List Char → Option (List JVal × List Char)
  | 0, _ => none
  | fuel + 1, cs =>
    match parse_json_value fuel cs with
    | none => none
    | some (v, rest) =>
      match skip_json_spaces rest with
      | ',' :: r => (parse_json_elems fuel r).map (fun p => (v :: p.1, p.2))
      | ']' :: r => some ([v], r)
      | _ => none

/-- Comma-separated string-colon-value pairs up to a closing brace,
fuelled. -/
def parse_json_fields : Nat → List Char → Option (List (String × JVal) × List Char)
  | 0, _ => none
  | fuel + 1, cs =>
    match skip_json_spaces cs with
    | '"' :: r =>
      match parse_json_string r with
      | none => none
      | some (key, rest) =>
        match skip_json_spaces rest with
        | ':' :: r2 =>
          (match parse_json_value fuel r2 with
           | none => none
           | some (v, rest2) =>
             match skip_json_spaces rest2 with
             | ',' :: r3 =>
               (parse_json_fields fuel r3).map
                 (fun p => ((String.mk key, v) :: p.1, p.2))
             | '}' :: r3 => some ([(String.mk key, v)], r3)
             | _ => none)
        | _ => none
    | _ => none

end

/-- json.loads: parse one JSON document and require only whitespace after
it. -/
def json_loads (s : String) : Option JVal :=
  match parse_json_value (2 * s.length + 2) s.toList with
  | none => none
  | some (v, rest) => if (skip_json_spaces rest).isEmpty then some v else none

/-- The frame-collection loop of get_final_message of
isabelle_client/socket_communication.py over an already-decoded frame
sequence: reading the next frame is taking the head of the list, and none
models a run that would have to read past the supplied frames.  This is the
frame-stream form of the loop that get_final_message_from runs on the byte
stream. -/
def collect_messages (final : List String) :
    String → Bool → List IsabelleResponse → Option (List IsabelleResponse)
  | prev, okr, frames =>
    if prev ∈ final ∧ okr = true then some []
    else
      match frames with
      | [] => none
      | f :: rest =>
        (collect_messages final f.response_type (okr || (prev == "OK")) rest).map
          (fun l => f :: l)

/-- The frame-collection loop of get_final_message of
src/isabelle_client/socket_communication.py over an already-decoded frame
sequence: response starts as None and the loop runs while it is None or its
type is not final; there is no password_ok_received flag. -/
def collect_messages_v2 (final : List IsabelleResponseType) :
    Option IsabelleResponseType → List IsabelleResponseV2 →
      Option (List IsabelleResponseV2)
  | prev, frames =>
    if (match prev with | none => false | some t => decide (t ∈ final)) = true
    then some []
    else
      match frames with
      | [] => none
      | f :: rest =>
        (collect_messages_v2 final (some f.response_type) rest).map
          (fun l => f :: l)

theorem readline_append (s : ByteStream) :
    (readline s).1 ++ (readline s).2 = s := by
  induction s with
  | nil => rfl
  | cons c rest ih =>
    by_cases hc : c = '\n'
    · simp [readline, hc]
    · simp only [readline, if_neg hc]
      simpa using ih

theorem readline_ne_nil {s : ByteStream} (h : s ≠ []) : (readline s).1 ≠ [] := by
  cases s with
  | nil => exact absurd rfl h
  | cons c rest =>
    by_cases hc : c = '\n' <;> simp [readline, hc]

theorem readline_of_newline {l : List Char} (hl : '\n' ∉ l) (r : ByteStream) :
    readline (l ++ '\n' :: r) = (l ++ ['\n'], r) := by
  induction l with
  | nil => simp [readline]
  | cons c cs ih =>
    have hc : c ≠ '\n' := fun e => hl (by simp [e])
    have ihm : '\n' ∉ cs := fun hm => hl (List.mem_cons_of_mem _ hm)
    simp [readline, hc, ih ihm]

theorem takeWhile_of_all {p : Char → Bool} :
    ∀ {l : List Char}, (∀ c ∈ l, p c = true) → l.takeWhile p = l := by
  intro l
  induction l with
  | nil => intro _; rfl
  | cons c cs ih =>
    intro h
    have hc : p c = true := h c (by simp)
    simp [List.takeWhile_cons_of_pos hc, ih (fun x hx => h x (by simp [hx]))]

theorem takeWhile_append_stop {p : Char → Bool} {l : List Char} {c : Char}
    (hl : ∀ x ∈ l, p x = true) (hc : p c = false) (t : List Char) :
    (l ++ c :: t).takeWhile p = l := by
  induction l with
  | nil =>
    rw [List.nil_append, List.takeWhile_cons_of_neg]
    simp [hc]
  | cons a l ih =>
    have ha : p a = true := hl a (by simp)
    simp [List.takeWhile_cons_of_pos ha,
      ih (fun x hx => hl x (by simp [hx]))]

/-- Unfolded form of length_prefix_match. -/
theorem length_prefix_match_eq (line : List Char) :
    length_prefix_match line =
      if (line.takeWhile Char.isDigit).isEmpty then none
      else if (line.drop (line.takeWhile Char.isDigit).length).head? = some '\n'
      then some (digitsToNat (line.takeWhile Char.isDigit))
      else none := rfl

/-- Unfolded form of parse_content. -/
theorem parse_content_eq (content : List Char) :
    parse_content content =
      if (content.takeWhile isWordChar).isEmpty then none
      else
        some (String.mk (content.takeWhile isWordChar),
          String.mk
            ((if (content.drop (content.takeWhile isWordChar).length).head?
                  = some ' '
              then (content.drop (content.takeWhile isWordChar).length).tail
              else content.drop
                (content.takeWhile isWordChar).length).takeWhile
              (fun c => c != '\n'))) := rfl

theorem parse_content_ne_nil {l : List Char} {kb : String × String}
    (h : parse_content l = some kb) : l ≠ [] := by
  intro he
  subst he
  simp [parse_content] at h

theorem length_prefix_ne_nil {l : List Char} {n : Nat}
    (h : length_prefix_match l = some n) : l ≠ [] := by
  intro he
  subst he
  simp [length_prefix_match] at h

theorem length_prefix_none_head {c : Char} (hc : c.isDigit = false)
    (l : List Char) : length_prefix_match (c :: l) = none := by
  have h1 : (c :: l).takeWhile Char.isDigit = [] := by
    rw [List.takeWhile_cons_of_neg]
    simp [hc]
  rw [length_prefix_match_eq, h1]
  rfl

theorem length_prefix_digit_line {ds : List Char} (hne : ds ≠ [])
    (hd : ∀ c ∈ ds, c.isDigit = true) :
    length_prefix_match (ds ++ ['\n']) = some (digitsToNat ds) := by
  have htw : (ds ++ ['\n']).takeWhile Char.isDigit = ds := by
    have h0 : (ds ++ '\n' :: ([] : List Char)).takeWhile Char.isDigit = ds :=
      takeWhile_append_stop hd (by decide) []
    simpa using h0
  rw [length_prefix_match_eq, htw]
  simp [hne, List.drop_left]

/-- Splitting canonical frame content: a non-empty all-word kind, one space
exactly when the body is non-empty, the body free of line feeds, and a tail
that is empty or starts with a line feed, parse to the kind and the body. -/
theorem parse_content_canonical {k b t : List Char} (hk : k ≠ [])
    (hw : ∀ c ∈ k, isWordChar c = true) (hb : '\n' ∉ b)
    (ht : t = [] ∨ ∃ t2, t = '\n' :: t2) :
    parse_content (k ++ (if b.isEmpty then [] else ' ' :: b) ++ t)
      = some (String.mk k, String.mk b) := by
  have hkemp : k.isEmpty = false := by simpa [List.isEmpty_iff] using hk
  have hbody : ∀ x ∈ b, (x != '\n') = true := by
    intro x hx
    have hxne : x ≠ '\n' := fun e => hb (e ▸ hx)
    simpa using hxne
  cases b with
  | nil =>
    rcases ht with h | ⟨t2, h⟩ <;> subst h
    · have hkind : k.takeWhile isWordChar = k := takeWhile_of_all hw
      have hsh : (k ++ (if ([] : List Char).isEmpty then []
          else ' ' :: ([] : List Char))) ++ ([] : List Char) = k := by simp
      rw [hsh, parse_content_eq, hkind]
      simp [hkemp, List.drop_length]
    · have hkind : (k ++ '\n' :: t2).takeWhile isWordChar = k :=
        takeWhile_append_stop hw (by decide) t2
      have hsh : (k ++ (if ([] : List Char).isEmpty then []
          else ' ' :: ([] : List Char))) ++ '\n' :: t2 = k ++ '\n' :: t2 := by
        simp
      rw [hsh, parse_content_eq, hkind]
      simp [hkemp, List.drop_left, List.takeWhile_cons]
  | cons b0 bs =>
    have hsh : (k ++ (if (b0 :: bs).isEmpty then [] else ' ' :: (b0 :: bs)))
        ++ t = k ++ ' ' :: ((b0 :: bs) ++ t) := by simp
    have hkind : (k ++ ' ' :: ((b0 :: bs) ++ t)).takeWhile isWordChar = k :=
      takeWhile_append_stop hw (by decide) ((b0 :: bs) ++ t)
    have hbt : ((b0 :: bs) ++ t).takeWhile (fun c => c != '\n') = b0 :: bs := by
      rcases ht with h | ⟨t2, h⟩ <;> subst h
      · rw [List.append_nil]
        exact takeWhile_of_all hbody
      · exact takeWhile_append_stop hbody (by decide) t2
    rw [hsh, parse_content_eq, hkind]
    simp only [List.cons_append] at hbt
    simp [hkemp, List.drop_left, hbt]

/-- A successful read consumes at least one byte of the stream. -/
theorem get_response_ok_length {s : ByteStream} {r : IsabelleResponse}
    {s2 : ByteStream} (h : get_response_from_isabelle s = .ok (r, s2)) :
    s2.length < s.length := by
  have hsplit := readline_append s
  simp only [get_response_from_isabelle] at h
  rcases hlp : length_prefix_match (readline s).1 with _ | n
  · simp only [hlp] at h
    rcases hpc : parse_content (readline s).1 with _ | kb
    · simp only [hpc] at h
      exact Except.noConfusion h
    · simp only [hpc] at h
      have hne : (readline s).1 ≠ [] := parse_content_ne_nil hpc
      have hs2 : s2 = (readline s).2 := by
        simp only [Except.ok.injEq, Prod.mk.injEq] at h
        exact h.2.symm
      subst hs2
      calc (readline s).2.length
          < (readline s).1.length + (readline s).2.length := by
            have : 0 < (readline s).1.length := List.length_pos.mpr hne
            omega
        _ = s.length := by rw [← List.length_append, hsplit]
  · simp only [hlp] at h
    rcases hre : readexactly n (readline s).2 with _ | pr
    · simp only [hre] at h
      exact Except.noConfusion h
    · simp only [hre] at h
      rcases hpc : parse_content pr.1 with _ | kb
      · simp only [hpc] at h
        exact Except.noConfusion h
      · simp only [hpc] at h
        have hne : (readline s).1 ≠ [] := length_prefix_ne_nil hlp
        have hs2 : s2 = pr.2 := by
          simp only [Except.ok.injEq, Prod.mk.injEq] at h
          exact h.2.symm
        have hpr2 : pr.2 = (readline s).2.drop n := by
          simp only [readexactly] at hre
          by_cases hn : n ≤ (readline s).2.length
          · rw [if_pos hn] at hre
            cases hre
            rfl
          · rw [if_neg hn] at hre; cases hre
        subst hs2
        calc pr.2.length ≤ (readline s).2.length := by
              rw [hpr2, List.length_drop]; omega
          _ < (readline s).1.length + (readline s).2.length := by
              have : 0 < (readline s).1.length := List.length_pos.mpr hne
              omega
          _ = s.length := by rw [← List.length_append, hsplit]

theorem loop_ok_ne_nil {final : List String} {fuel : Nat} {prev : String}
    {okr : Bool} {s : ByteStream} (h : ¬(prev ∈ final ∧ okr = true)) :
    get_final_message_from final fuel prev okr s ≠ .ok [] := by
  cases fuel with
  | zero => simp [get_final_message_from]
  | succ fuel =>
    simp only [get_final_message_from, if_neg h]
    rcases hr : get_response_from_isabelle s with e | rs
    · simp [hr]
    · simp only [hr]
      rcases hrec : get_final_message_from final fuel rs.1.response_type
          (okr || (prev == "OK")) rs.2 with e | rest
      · simp [hrec]
      · simp [hrec]

theorem loop_stop_nil {final : List String} {fuel : Nat} {prev : String}
    {okr : Bool} {s : ByteStream} {L : List IsabelleResponse}
    (h1 : prev ∈ final) (h2 : okr = true)
    (h : get_final_message_from final fuel prev okr s = .ok L) : L = [] := by
  cases fuel with
  | zero => exact absurd h (by simp [get_final_message_from])
  | succ fuel =>
    simp only [get_final_message_from, if_pos (And.intro h1 h2)] at h
    exact (Except.ok.injEq _ _ ▸ h).symm

/-- On a normal run the last yielded frame has a final kind. -/
theorem loop_last_mem_final {final : List String} :
    ∀ (fuel : Nat) (prev : String) (okr : Bool) (s : ByteStream)
      (L : List IsabelleResponse),
      get_final_message_from final fuel prev okr s = .ok L → L ≠ [] →
      ∃ f, L.getLast? = some f ∧ f.response_type ∈ final := by
  intro fuel
  induction fuel with
  | zero =>
    intro prev okr s L h _
    exact absurd h (by simp [get_final_message_from])
  | succ fuel ih =>
    intro prev okr s L h hne
    by_cases hstop : prev ∈ final ∧ okr = true
    · exact absurd (loop_stop_nil hstop.1 hstop.2 h) hne
    · simp only [get_final_message_from, if_neg hstop] at h
      rcases hr : get_response_from_isabelle s with e | rs
      · simp only [hr] at h
        exact Except.noConfusion h
      · simp only [hr] at h
        rcases hrec : get_final_message_from final fuel rs.1.response_type
            (okr || (prev == "OK")) rs.2 with e | rest
        · simp only [hrec] at h
          exact Except.noConfusion h
        · simp only [hrec] at h
          have hL : L = rs.1 :: rest := (Except.ok.injEq _ _ ▸ h).symm
          subst hL
          cases rest with
          | nil =>
            have hstop2 : rs.1.response_type ∈ final := by
              by_contra hnot
              exact loop_ok_ne_nil (fun hc => hnot hc.1) hrec
            exact ⟨rs.1, by simp, hstop2⟩
          | cons r2 rest2 =>
            obtain ⟨f, hlast, hfin⟩ := ih _ _ _ _ hrec (by simp)
            exact ⟨f, by rw [List.getLast?_cons_cons]; exact hlast, hfin⟩

/-- Auth gating: when the loop starts with the flag unset and a previous type
that is not OK, a normal run contains an OK frame strictly before its last
frame. -/
theorem loop_has_prior_ok {final : List String} :
    ∀ (fuel : Nat) (prev : String) (okr : Bool) (s : ByteStream)
      (L : List IsabelleResponse),
      get_final_message_from final fuel prev okr s = .ok L →
      okr = false → prev ≠ "OK" →
      ∃ f ∈ L.dropLast, f.response_type = "OK" := by
  intro fuel
  induction fuel with
  | zero =>
    intro prev okr s L h _ _
    exact absurd h (by simp [get_final_message_from])
  | succ fuel ih =>
    intro prev okr s L h hokr hprev
    subst hokr
    have hstop : ¬(prev ∈ final ∧ false = true) := by simp
    simp only [get_final_message_from, if_neg hstop] at h
    rcases hr : get_response_from_isabelle s with e | rs
    · simp only [hr] at h
      exact Except.noConfusion h
    · simp only [hr] at h
      have hbeq : (prev == "OK") = false := by
        simpa using hprev
      rw [hbeq] at h
      rcases hrec : get_final_message_from final fuel rs.1.response_type
          (false || false) rs.2 with e | rest
      · simp only [hrec] at h
        exact Except.noConfusion h
      · simp only [hrec] at h
        have hL : L = rs.1 :: rest := (Except.ok.injEq _ _ ▸ h).symm
        subst hL
        have hrest : rest ≠ [] := by
          intro hnil
          subst hnil
          exact loop_ok_ne_nil (by simp) hrec
        by_cases hOK : rs.1.response_type = "OK"
        · refine ⟨rs.1, ?_, hOK⟩
          rw [List.dropLast_cons_of_ne_nil hrest]
          simp
        · obtain ⟨f, hf, hfOK⟩ := ih _ _ _ _ hrec rfl hOK
          refine ⟨f, ?_, hfOK⟩
          rw [List.dropLast_cons_of_ne_nil hrest]
          exact List.mem_cons_of_mem _ hf

/-- Minimality: no frame before the last one could have terminated the loop;
a non-final frame of the run either has a non-final kind or arrived before
the auth flag was set (no strictly earlier frame of kind OK, the flag unset
and the previous kind not OK at entry). -/
theorem loop_first_qualifying {final : List String} :
    ∀ (fuel : Nat) (prev : String) (okr : Bool) (s : ByteStream)
      (L : List IsabelleResponse),
      get_final_message_from final fuel prev okr s = .ok L →
      ∀ i f, L[i]? = some f → i + 1 < L.length →
      ¬(f.response_type ∈ final ∧
        (okr = true ∨ prev = "OK" ∨
          ∃ j, j < i ∧ ∃ g, L[j]? = some g ∧ g.response_type = "OK")) := by
  intro fuel
  induction fuel with
  | zero =>
    intro prev okr s L h
    exact absurd h (by simp [get_final_message_from])
  | succ fuel ih =>
    intro prev okr s L h i f hif hilen
    by_cases hstop : prev ∈ final ∧ okr = true
    · have := loop_stop_nil hstop.1 hstop.2 h
      subst this
      simp at hif
    · simp only [get_final_message_from, if_neg hstop] at h
      rcases hr : get_response_from_isabelle s with e | rs
      · simp only [hr] at h
        exact Except.noConfusion h
      · simp only [hr] at h
        rcases hrec : get_final_message_from final fuel rs.1.response_type
            (okr || (prev == "OK")) rs.2 with e | rest
        · simp only [hrec] at h
          exact Except.noConfusion h
        · simp only [hrec] at h
          have hL : L = rs.1 :: rest := (Except.ok.injEq _ _ ▸ h).symm
          subst hL
          cases i with
          | zero =>
            have hf : rs.1 = f := by simpa using hif
            subst hf
            intro hcon
            obtain ⟨hfin, hauth⟩ := hcon
            have hok2 : (okr || (prev == "OK")) = true := by
              rcases hauth with h1 | h2 | ⟨j, hj, _⟩
              · simp [h1]
              · simp [h2]
              · omega
            rw [hok2] at hrec
            have hrest : rest = [] := loop_stop_nil hfin rfl hrec
            subst hrest
            simp at hilen
          | succ i =>
            intro hcon
            obtain ⟨hfin, hauth⟩ := hcon
            have hif2 : rest[i]? = some f := by simpa using hif
            have hilen2 : i + 1 < rest.length := by
              simpa [Nat.succ_lt_succ_iff] using hilen
            refine ih _ _ _ _ hrec i f hif2 hilen2 ⟨hfin, ?_⟩
            rcases hauth with h1 | h2 | ⟨j, hj, g, hjg, hgOK⟩
            · left; simp [h1]
            · left; simp [h2]
            · cases j with
              | zero =>
                right; left
                have hg : rs.1 = g := by simpa using hjg
                rw [← hg] at hgOK
                exact hgOK
              | succ j =>
                right; right
                exact ⟨j, by omega, g, by simpa using hjg, hgOK⟩

/-- Any failure of the loop is a failure of a single reader call (on a
suffix of the stream), propagated unchanged. -/
theorem loop_error_reader {final : List String} :
    ∀ (fuel : Nat) (prev : String) (okr : Bool) (s : ByteStream)
      (e : ReadError), s.length < fuel →
      get_final_message_from final fuel prev okr s = .error e →
      ∃ t : ByteStream, t.length ≤ s.length
        ∧ get_response_from_isabelle t = .error e := by
  intro fuel
  induction fuel with
  | zero =>
    intro prev okr s e hlt
    omega
  | succ fuel ih =>
    intro prev okr s e hlt h
    by_cases hstop : prev ∈ final ∧ okr = true
    · simp [get_final_message_from, if_pos hstop] at h
    · simp only [get_final_message_from, if_neg hstop] at h
      rcases hr : get_response_from_isabelle s with e2 | rs
      · simp only [hr] at h
        have he : e2 = e := by simpa using h
        subst he
        exact ⟨s, le_refl _, hr⟩
      · simp only [hr] at h
        rcases hrec : get_final_message_from final fuel rs.1.response_type
            (okr || (prev == "OK")) rs.2 with e2 | rest
        · simp only [hrec] at h
          have he : e2 = e := by simpa using h
          subst he
          have hcons : rs.2.length < s.length := by
            have hp : rs = (rs.1, rs.2) := rfl
            exact get_response_ok_length (hp ▸ hr)
          obtain ⟨t, ht, hread⟩ := ih _ _ _ _ (by omega) hrec
          exact ⟨t, by omega, hread⟩
        · simp only [hrec] at h
          exact Except.noConfusion h

theorem word_ne_newline {x : Char} (h : isWordChar x = true) : x ≠ '\n' := by
  intro he
  subst he
  exact absurd h (by decide)

theorem readexactly_none_iff {n : Nat} {s : ByteStream} :
    readexactly n s = none ↔ s.length < n := by
  by_cases hn : n ≤ s.length
  · simp only [readexactly, if_pos hn]
    constructor
    · intro h
      exact Option.noConfusion h
    · intro h
      omega
  · simp only [readexactly, if_neg hn]
    constructor
    · intro _
      omega
    · intro _
      trivial

theorem readexactly_some {n : Nat} {s : ByteStream} {pr : List Char × ByteStream}
    (h : readexactly n s = some pr) :
    n ≤ s.length ∧ pr.1 = s.take n ∧ pr.2 = s.drop n := by
  by_cases hn : n ≤ s.length
  · rw [readexactly, if_pos hn] at h
    cases h
    exact ⟨hn, rfl, rfl⟩
  · rw [readexactly, if_neg hn] at h
    cases h

/-- Reading a canonical newline-terminated frame line: any non-empty word
kind whose first character is not a digit, a space exactly when the body is
non-empty, a line-feed-free body, and a terminating line feed. -/
theorem get_response_canonical_line (c : Char) (k b : List Char)
    (rest : ByteStream) (hcw : isWordChar c = true) (hcd : c.isDigit = false)
    (hk : ∀ x ∈ k, isWordChar x = true) (hb : '\n' ∉ b) :
    get_response_from_isabelle
        (((c :: k) ++ (if b.isEmpty then [] else ' ' :: b)) ++ '\n' :: rest)
      = .ok (⟨String.mk (c :: k), String.mk b, none⟩, rest) := by
  have hline : '\n' ∉ (c :: k) ++ (if b.isEmpty then [] else ' ' :: b) := by
    intro hmem
    rcases List.mem_append.mp hmem with h1 | h2
    · rcases List.mem_cons.mp h1 with h3 | h4
      · exact word_ne_newline hcw h3.symm
      · exact word_ne_newline (hk _ h4) rfl
    · by_cases hbe : b.isEmpty
      · simp [hbe] at h2
      · simp only [hbe, if_false] at h2
        rcases List.mem_cons.mp h2 with h3 | h4
        · exact absurd h3 (by decide)
        · exact hb h4
  have hrl := readline_of_newline hline rest
  have hlp : length_prefix_match
      (((c :: k) ++ (if b.isEmpty then [] else ' ' :: b)) ++ ['\n']) = none := by
    have hsh : ((c :: k) ++ (if b.isEmpty then [] else ' ' :: b)) ++ ['\n']
        = c :: ((k ++ (if b.isEmpty then [] else ' ' :: b)) ++ ['\n']) := by
      simp
    rw [hsh]
    exact length_prefix_none_head hcd _
  have hpc : parse_content
      (((c :: k) ++ (if b.isEmpty then [] else ' ' :: b)) ++ ['\n'])
      = some (String.mk (c :: k), String.mk b) := by
    refine parse_content_canonical (by simp) ?_ hb (Or.inr ⟨[], rfl⟩)
    intro x hx
    rcases List.mem_cons.mp hx with h3 | h4
    · exact h3 ▸ hcw
    · exact hk _ h4
  simp only [get_response_from_isabelle, hrl, hlp, hpc]

/-- Reading a length-prefixed frame: a digit line, then exactly the declared
number of bytes, which are split by the kind/body pattern; the remainder of
the stream is untouched. -/
theorem get_response_prefixed (ds payload : List Char) (rest : ByteStream)
    (hne : ds ≠ []) (hdig : ∀ x ∈ ds, x.isDigit = true)
    (hlen : digitsToNat ds = payload.length) {kb : String × String}
    (hp : parse_content payload = some kb) :
    get_response_from_isabelle (ds ++ '\n' :: (payload ++ rest))
      = .ok (⟨kb.1, kb.2, some payload.length⟩, rest) := by
  have hnl : '\n' ∉ ds := by
    intro hmem
    have := hdig _ hmem
    exact absurd this (by decide)
  have hrl := readline_of_newline hnl (payload ++ rest)
  have hlp : length_prefix_match (ds ++ ['\n']) = some payload.length := by
    rw [length_prefix_digit_line hne hdig, hlen]
  have hre : readexactly payload.length (payload ++ rest)
      = some (payload, rest) := by
    rw [readexactly, if_pos (by simp), List.take_left, List.drop_left]
  simp only [get_response_from_isabelle, hrl, hlp, hre, hp]

/-- fromString inverts value. -/
theorem fromString_value (t : IsabelleResponseType) :
    IsabelleResponseType.fromString t.value = some t := by
  cases t <;> rfl

/-- value is injective. -/
theorem value_injective : ∀ t u : IsabelleResponseType,
    t.value = u.value → t = u := by
  intro t u h
  cases t <;> cases u <;> first
    | rfl
    | exact absurd h (by decide)

/-- The value string of every member is a non-empty word token that does not
start with a digit and contains no line feed. -/
theorem value_shape (t : IsabelleResponseType) :
    t.value.toList ≠ [] ∧ (∀ x ∈ t.value.toList, isWordChar x = true)
      ∧ (t.value.toList.headI).isDigit = false
      ∧ '\n' ∉ t.value.toList := by
  cases t <;> decide

/-- Reading a canonical newline-terminated line with the newer reader: the
same framing, then the enum and json.loads steps in source order. -/
theorem get_response_v2_canonical_line (jloads : String → Option JVal)
    (c : Char) (k b : List Char) (rest : ByteStream)
    (hcw : isWordChar c = true) (hcd : c.isDigit = false)
    (hk : ∀ x ∈ k, isWordChar x = true) (hb : '\n' ∉ b) :
    get_response_from_isabelle_v2 jloads
        (((c :: k) ++ (if b.isEmpty then [] else ' ' :: b)) ++ '\n' :: rest)
      = (match IsabelleResponseType.fromString (String.mk (c :: k)) with
         | none => .error (.unknownResponseType (String.mk (c :: k)))
         | some t =>
           if String.mk b = "" then .ok (⟨t, .raw (String.mk b), none⟩, rest)
           else
             match jloads (String.mk b) with
             | none => .error (.jsonDecodeError (String.mk b))
             | some v => .ok (⟨t, .json v, none⟩, rest)) := by
  have hline : '\n' ∉ (c :: k) ++ (if b.isEmpty then [] else ' ' :: b) := by
    intro hmem
    rcases List.mem_append.mp hmem with h1 | h2
    · rcases List.mem_cons.mp h1 with h3 | h4
      · exact word_ne_newline hcw h3.symm
      · exact word_ne_newline (hk _ h4) rfl
    · by_cases hbe : b.isEmpty
      · simp [hbe] at h2
      · simp only [hbe, if_false] at h2
        rcases List.mem_cons.mp h2 with h3 | h4
        · exact absurd h3 (by decide)
        · exact hb h4
  have hrl := readline_of_newline hline rest
  have hlp : length_prefix_match
      (((c :: k) ++ (if b.isEmpty then [] else ' ' :: b)) ++ ['\n']) = none := by
    have hsh : ((c :: k) ++ (if b.isEmpty then [] else ' ' :: b)) ++ ['\n']
        = c :: ((k ++ (if b.isEmpty then [] else ' ' :: b)) ++ ['\n']) := by
      simp
    rw [hsh]
    exact length_prefix_none_head hcd _
  have hpc : parse_content
      (((c :: k) ++ (if b.isEmpty then [] else ' ' :: b)) ++ ['\n'])
      = some (String.mk (c :: k), String.mk b) := by
    refine parse_content_canonical (by simp) ?_ hb (Or.inr ⟨[], rfl⟩)
    intro x hx
    rcases List.mem_cons.mp hx with h3 | h4
    · exact h3 ▸ hcw
    · exact hk _ h4
  simp only [get_response_from_isabelle_v2, hrl, hlp, hpc]

/-- The current reader fails exactly on content that does not match the
kind/body pattern or a declared length prefix followed by fewer bytes than
declared. -/
theorem get_response_error_iff (s : ByteStream) :
    (∃ e, get_response_from_isabelle s = .error e) ↔ malformed_or_short s := by
  simp only [get_response_from_isabelle, malformed_or_short]
  rcases hlp : length_prefix_match (readline s).1 with _ | n
  · rcases hpc : parse_content (readline s).1 with _ | kb <;> simp [hpc]
  · rcases hre : readexactly n (readline s).2 with _ | pr
    · have hlt := readexactly_none_iff.mp hre
      simp [hre, hlt]
    · obtain ⟨hle, hpr1, _⟩ := readexactly_some hre
      have hnlt : ¬ (readline s).2.length < n := by omega
      rcases hpc : parse_content pr.1 with _ | kb
      · rw [hpr1] at hpc
        simp [hre, hpc, hpr1]
      · rw [hpr1] at hpc
        simp [hre, hpc, hnlt, hpr1]

theorem mem_map_value {finalT : List IsabelleResponseType}
    {t : IsabelleResponseType} :
    t.value ∈ finalT.map IsabelleResponseType.value ↔ t ∈ finalT := by
  constructor
  · intro h
    rcases List.mem_map.mp h with ⟨u, hu, he⟩
    exact (value_injective u t he) ▸ hu
  · intro h
    exact List.mem_map.mpr ⟨t, h, rfl⟩

/-- After the auth flag is set, the two frame-collection loops walk streams
of pairwise equal kinds in lockstep: both fall off the end together or both
stop after the same number of frames. -/
theorem collect_corr {finalT : List IsabelleResponseType} :
    ∀ (nf : List IsabelleResponse) (vf : List IsabelleResponseV2)
      (pt : IsabelleResponseType),
      nf.map IsabelleResponse.response_type
        = vf.map (fun f => f.response_type.value) →
      (collect_messages (finalT.map IsabelleResponseType.value) pt.value true nf
          = none
        ∧ collect_messages_v2 finalT (some pt) vf = none)
      ∨ ∃ kk,
          collect_messages (finalT.map IsabelleResponseType.value) pt.value true
            nf = some (nf.take kk)
          ∧ collect_messages_v2 finalT (some pt) vf = some (vf.take kk) := by
  intro nf
  induction nf with
  | nil =>
    intro vf pt hmap
    have hvf : vf = [] := by
      cases vf with
      | nil => rfl
      | cons g vg => simp at hmap
    subst hvf
    by_cases hst : pt ∈ finalT
    · right
      refine ⟨0, ?_, ?_⟩
      · simp only [collect_messages]
        rw [if_pos ⟨mem_map_value.mpr hst, trivial⟩]
        simp
      · simp only [collect_messages_v2]
        rw [if_pos (by simp [hst])]
        simp
    · left
      have hns : ¬ (pt.value ∈ finalT.map IsabelleResponseType.value
          ∧ True) := fun hc => hst (mem_map_value.mp hc.1)
      constructor
      · simp only [collect_messages]
        rw [if_neg hns]
      · simp only [collect_messages_v2]
        rw [if_neg (by simp [hst])]
  | cons f nf ih =>
    intro vf pt hmap
    cases vf with
    | nil => simp at hmap
    | cons g vg =>
      have hfg : f.response_type = g.response_type.value := by
        have hh := congrArg List.head? hmap
        simpa using hh
      have htails : nf.map IsabelleResponse.response_type
          = vg.map (fun f => f.response_type.value) := by
        have ht := congrArg List.tail hmap
        simpa using ht
      by_cases hst : pt ∈ finalT
      · right
        refine ⟨0, ?_, ?_⟩
        · simp only [collect_messages]
          rw [if_pos ⟨mem_map_value.mpr hst, trivial⟩]
          simp
        · simp only [collect_messages_v2]
          rw [if_pos (by simp [hst])]
          simp
      · have hns : ¬ (pt.value ∈ finalT.map IsabelleResponseType.value
            ∧ True) := fun hc => hst (mem_map_value.mp hc.1)
        have hstep : collect_messages (finalT.map IsabelleResponseType.value)
            pt.value true (f :: nf)
            = (collect_messages (finalT.map IsabelleResponseType.value)
                f.response_type true nf).map (fun l => f :: l) := by
          simp only [collect_messages]
          rw [if_neg hns]
          simp
        have hstep2 : collect_messages_v2 finalT (some pt) (g :: vg)
            = (collect_messages_v2 finalT (some g.response_type) vg).map
                (fun l => g :: l) := by
          simp only [collect_messages_v2]
          rw [if_neg (by simp [hst])]
        rcases ih vg g.response_type htails with ⟨ha, hb⟩ | ⟨kk, ha, hb⟩
        · left
          constructor
          · rw [hstep, hfg, ha]
            rfl
          · rw [hstep2, hb]
            rfl
        · right
          refine ⟨kk + 1, ?_, ?_⟩
          · rw [hstep, hfg, ha]
            rfl
          · rw [hstep2, hb]
            rfl


/-- C1: for every frame stream and every final kind set, the session-protocol
loop never terminates the exchange on a frame that arrives before an OK frame
has been observed: every normal run contains an OK frame strictly before its
terminal frame; in particular the byte stream carrying
[FINISHED a, OK b, FINISHED c] with final kind set {FINISHED} does not stop at
the first FINISHED frame but at the second, yielding all three frames. -/
theorem c1_auth_gating :
    (∀ (final : List String) (s : ByteStream) (L : List IsabelleResponse),
        get_final_message final s = .ok L →
        ∃ f ∈ L.dropLast, f.response_type = "OK")
    ∧ get_final_message ["FINISHED"] ("FINISHED a\nOK b\nFINISHED c\n".toList)
        = .ok [⟨"FINISHED", "a", none⟩, ⟨"OK", "b", none⟩,
            ⟨"FINISHED", "c", none⟩] := by
  constructor
  · intro final s L h
    exact loop_has_prior_ok _ _ _ _ _ h rfl (by decide)
  · rfl

theorem c1_auth_gating_witness :
    ∃ f ∈ ([⟨"FINISHED", "a", none⟩, ⟨"OK", "b", none⟩,
        ⟨"FINISHED", "c", none⟩] : List IsabelleResponse).dropLast,
      f.response_type = "OK" :=
  c1_auth_gating.1 ["FINISHED"] ("FINISHED a\nOK b\nFINISHED c\n".toList) _
    c1_auth_gating.2

/-- C7: the session protocol stops at the first qualifying terminal frame
after authentication (no earlier frame both has a final kind and follows an
OK frame) and returns every frame through the terminal one in arrival order;
the two concrete scenarios: [OK "connection OK", OK "42"] with final kinds
{OK, ERROR} terminates on the second frame (exchange of length 2), and
[OK, NOTE, NOTE, FINISHED] with final kinds {FINISHED, FAILED, ERROR} yields
an exchange of length 4 in original order. -/
theorem c7_completion :
    (∀ (final : List String) (s : ByteStream) (L : List IsabelleResponse),
        get_final_message final s = .ok L →
        (∃ f, L.getLast? = some f ∧ f.response_type ∈ final)
        ∧ ∀ i f, L[i]? = some f → i + 1 < L.length →
            ¬(f.response_type ∈ final ∧
              ∃ j, j < i ∧ ∃ g, L[j]? = some g ∧ g.response_type = "OK"))
    ∧ get_final_message ["OK", "ERROR"] ("OK connection OK\nOK 42\n".toList)
        = .ok [⟨"OK", "connection OK", none⟩, ⟨"OK", "42", none⟩]
    ∧ get_final_message ["FINISHED", "FAILED", "ERROR"]
        ("OK a\nNOTE b\nNOTE c\nFINISHED d\n".toList)
        = .ok [⟨"OK", "a", none⟩, ⟨"NOTE", "b", none⟩, ⟨"NOTE", "c", none⟩,
            ⟨"FINISHED", "d", none⟩] := by
  refine ⟨?_, by rfl, by rfl⟩
  intro final s L h
  constructor
  · have hne : L ≠ [] := by
      intro hnil
      subst hnil
      exact loop_ok_ne_nil (by simp) h
    exact loop_last_mem_final _ _ _ _ _ h hne
  · intro i f hif hlen hcon
    refine loop_first_qualifying _ _ _ _ _ h i f hif hlen ⟨hcon.1, ?_⟩
    right
    right
    exact hcon.2

theorem c7_completion_witness :
    ∃ f, ([⟨"OK", "connection OK", none⟩, ⟨"OK", "42", none⟩]
        : List IsabelleResponse).getLast? = some f
      ∧ f.response_type ∈ ["OK", "ERROR"] :=
  (c7_completion.1 ["OK", "ERROR"] ("OK connection OK\nOK 42\n".toList) _
    c7_completion.2.1).1

/-- C3: the claim matches the code's own documentation but not the code.
execute_command does select final kinds {FINISHED, FAILED, ERROR} when
asynchronous and {OK, ERROR} otherwise and does write exactly the preamble
password, line feed, command, line feed; but the call then awaits
get_final_message, which in this source tree is an async generator, so every
invocation raises TypeError: the session protocol is never run to completion
and no Isabelle server response is ever returned to the caller, whatever the
command, flag or server reply. -/
theorem c3_execute_command_bug (client : IsabelleClient) (command : String)
    (asynchronous : Bool) (server_reply : ByteStream) :
    (execute_command client command asynchronous server_reply).written
        = client.password ++ "\n" ++ command ++ "\n"
    ∧ (execute_command client command asynchronous server_reply).final_message
        = (if asynchronous then ["FINISHED", "FAILED", "ERROR"]
           else ["OK", "ERROR"])
    ∧ (execute_command client command asynchronous server_reply).response
        = .error .asyncGeneratorAwaited :=
  ⟨rfl, rfl, rfl⟩

/-- C6: the frame reader fails exactly when the frame content does not match
the kind/body pattern or a declared length prefix is followed by fewer bytes
than declared before stream closure (the malformed-content failure carries the
offending raw content); the session protocol propagates any such reader error
unchanged, so the caller receives the error, not a partial exchange: every
loop failure is literally a reader failure, and on the stream
OK x, then the buggy 5-prefixed "# !!!", the already-collected OK frame is
discarded and the error surfaces. -/
theorem c6_malformed :
    (∀ s : ByteStream,
        (∃ e, get_response_from_isabelle s = .error e) ↔ malformed_or_short s)
    ∧ (∀ (final : List String) (s : ByteStream) (e : ReadError),
        get_final_message final s = .error e →
        ∃ t : ByteStream, t.length ≤ s.length
          ∧ get_response_from_isabelle t = .error e)
    ∧ get_final_message ["OK"] ("OK x\n5\n# !!!".toList)
        = .error (.unexpectedResponse "# !!!") := by
  refine ⟨get_response_error_iff, ?_, by rfl⟩
  intro final s e h
  exact loop_error_reader _ _ _ _ _ (by omega) h

theorem c6_malformed_witness :
    ∃ t : ByteStream, t.length ≤ ("OK x\n5\n# !!!".toList).length
      ∧ get_response_from_isabelle t
          = .error (.unexpectedResponse "# !!!") :=
  c6_malformed.2.1 ["OK"] ("OK x\n5\n# !!!".toList) _ c6_malformed.2.2

theorem mk_toList (s : String) : String.mk s.toList = s := rfl

/-- The rendering of a frame with no length prefix, character by character:
the kind, one space exactly when the body is non-empty, then the body. -/
theorem str_toList (kind body : String) :
    (IsabelleResponse.mk kind body none).str.toList
      = kind.toList ++ (if body.toList.isEmpty then []
          else ' ' :: body.toList) := by
  obtain ⟨bl⟩ := body
  cases bl with
  | nil =>
    show (IsabelleResponse.str _).data = _
    simp [IsabelleResponse.str, String.data_append, String.ext_iff,
      show ("" : String).data = [] from rfl]
  | cons b bs =>
    show (IsabelleResponse.str _).data = _
    simp [IsabelleResponse.str, String.data_append, String.ext_iff,
      show ("" : String).data = [] from rfl,
      show (" " : String).data = [' '] from rfl]

/-- get_response_canonical_line, with the kind given as one non-empty list
whose first character is not a digit. -/
theorem get_response_canonical_line2 (k b : List Char) (rest : ByteStream)
    (hk : k ≠ []) (hw : ∀ x ∈ k, isWordChar x = true)
    (hd : (k.headI).isDigit = false) (hb : '\n' ∉ b) :
    get_response_from_isabelle
        ((k ++ (if b.isEmpty then [] else ' ' :: b)) ++ '\n' :: rest)
      = .ok (⟨String.mk k, String.mk b, none⟩, rest) := by
  cases k with
  | nil => exact absurd rfl hk
  | cons c k2 =>
    exact get_response_canonical_line c k2 b rest (hw c (by simp))
      (by simpa using hd) (fun x hx => hw x (by simp [hx])) hb

/-- get_response_v2_canonical_line, with the kind given as one non-empty list
whose first character is not a digit. -/
theorem get_response_v2_canonical_line2 (jloads : String → Option JVal)
    (k b : List Char) (rest : ByteStream)
    (hk : k ≠ []) (hw : ∀ x ∈ k, isWordChar x = true)
    (hd : (k.headI).isDigit = false) (hb : '\n' ∉ b) :
    get_response_from_isabelle_v2 jloads
        ((k ++ (if b.isEmpty then [] else ' ' :: b)) ++ '\n' :: rest)
      = (match IsabelleResponseType.fromString (String.mk k) with
         | none => .error (.unknownResponseType (String.mk k))
         | some t =>
           if String.mk b = "" then .ok (⟨t, .raw (String.mk b), none⟩, rest)
           else
             match jloads (String.mk b) with
             | none => .error (.jsonDecodeError (String.mk b))
             | some v => .ok (⟨t, .json v, none⟩, rest)) := by
  cases k with
  | nil => exact absurd rfl hk
  | cons c k2 =>
    exact get_response_v2_canonical_line jloads c k2 b rest (hw c (by simp))
      (by simpa using hd) (fun x hx => hw x (by simp [hx])) hb

/-- C8: for every kind among the five ResponseKind values and every body
string without a line feed, rendering the frame the way
IsabelleResponse.__str__ does (kind, a space exactly when the body is
non-empty, the body) followed by a line feed and decoding that line with the
frame reader reproduces the original kind and body exactly, consuming nothing
beyond the line. -/
theorem c8_round_trip (kind body : String)
    (hkind : kind ∈ ["OK", "FINISHED", "NOTE", "FAILED", "ERROR"])
    (hbody : '\n' ∉ body.toList) (rest : ByteStream) :
    get_response_from_isabelle
        ((IsabelleResponse.mk kind body none).str.toList ++ '\n' :: rest)
      = .ok (⟨kind, body, none⟩, rest) := by
  have h5 : kind = "OK" ∨ kind = "FINISHED" ∨ kind = "NOTE"
      ∨ kind = "FAILED" ∨ kind = "ERROR" := by simpa using hkind
  have key : ∀ kd : String, kd.toList ≠ [] →
      (∀ x ∈ kd.toList, isWordChar x = true) →
      ((kd.toList).headI).isDigit = false →
      get_response_from_isabelle
          ((IsabelleResponse.mk kd body none).str.toList ++ '\n' :: rest)
        = .ok (⟨kd, body, none⟩, rest) := by
    intro kd h1 h2 h3
    rw [str_toList]
    simpa [mk_toList] using get_response_canonical_line2 kd.toList body.toList
      rest h1 h2 h3 hbody
  rcases h5 with rfl | rfl | rfl | rfl | rfl <;>
    exact key _ (by decide) (by decide) (by decide)

theorem c8_round_trip_witness :
    get_response_from_isabelle
        ((IsabelleResponse.mk "NOTE" "hello world" none).str.toList
          ++ '\n' :: [])
      = .ok (⟨"NOTE", "hello world", none⟩, []) :=
  c8_round_trip "NOTE" "hello world" (by decide) (by decide) []

/-- C2 as stated is false on the code: decoding the length-prefixed wire form
does consume exactly N bytes, but the body regex stops at the first line feed,
so a payload with an embedded line feed is not reproduced as the frame's
kind-plus-body content: "6\nOK a\nb" decodes to kind OK with body "a",
dropping the embedded line feed and the text after it. -/
theorem c2_counterexample :
    get_response_from_isabelle ("6\nOK a\nb".toList)
      = .ok (⟨"OK", "a", some 6⟩, [])
    ∧ "OK" ++ " " ++ "a" ≠ "OK a\nb" := by
  constructor
  · rfl
  · decide

/-- C2 amended: decoding "<N>\n<payload>" consumes exactly N bytes for every
payload (the remainder of the stream is returned untouched, whatever the
payload contains), and reproduces the payload exactly as kind plus body only
when the payload is of the canonical form kind, optional space, body with no
embedded line feed; a payload with embedded line feeds is consumed in full
but its body is truncated at the first line feed. -/
theorem c2_length_prefixed_amended :
    (∀ (ds payload : List Char) (rest : ByteStream) (kb : String × String),
        ds ≠ [] → (∀ x ∈ ds, x.isDigit = true) →
        digitsToNat ds = payload.length →
        parse_content payload = some kb →
        get_response_from_isabelle (ds ++ '\n' :: (payload ++ rest))
          = .ok (⟨kb.1, kb.2, some payload.length⟩, rest))
    ∧ (∀ (ds k b : List Char) (rest : ByteStream),
        ds ≠ [] → (∀ x ∈ ds, x.isDigit = true) →
        k ≠ [] → (∀ x ∈ k, isWordChar x = true) → '\n' ∉ b →
        digitsToNat ds = (k ++ (if b.isEmpty then [] else ' ' :: b)).length →
        get_response_from_isabelle
            (ds ++ '\n' :: ((k ++ (if b.isEmpty then [] else ' ' :: b)) ++ rest))
          = .ok (⟨String.mk k, String.mk b,
              some (k ++ (if b.isEmpty then [] else ' ' :: b)).length⟩, rest)) := by
  constructor
  · intro ds payload rest kb hne hdig hlen hp
    exact get_response_prefixed ds payload rest hne hdig hlen hp
  · intro ds k b rest hne hdig hk hw hb hlen
    have hp := parse_content_canonical hk hw hb (Or.inl rfl)
    rw [List.append_nil] at hp
    exact get_response_prefixed ds _ rest hne hdig hlen hp

theorem c2_length_prefixed_amended_witness :
    get_response_from_isabelle (['6'] ++ '\n' :: ("OK a\nb".toList ++ ['X']))
      = .ok (⟨"OK", "a", some ("OK a\nb".toList).length⟩, ['X']) :=
  c2_length_prefixed_amended.1 ['6'] ("OK a\nb".toList) ['X'] ("OK", "a")
    (by decide) (by decide) (by decide) (by rfl)

theorem parse_content_length {l : List Char} {kb : String × String}
    (h : parse_content l = some kb) :
    kb.1.length + kb.2.length ≤ l.length := by
  rw [parse_content_eq] at h
  by_cases hke : (l.takeWhile isWordChar).isEmpty
  · rw [if_pos hke] at h
    exact Option.noConfusion h
  · rw [if_neg hke] at h
    have hkb := (Option.some.injEq _ _ ▸ h).symm
    have h1 : kb.1 = String.mk (l.takeWhile isWordChar) := by
      rw [hkb]
    have h2 : kb.2 = String.mk
        ((if (l.drop (l.takeWhile isWordChar).length).head? = some ' '
          then (l.drop (l.takeWhile isWordChar).length).tail
          else l.drop
            (l.takeWhile isWordChar).length).takeWhile
          (fun c => c != '\n')) := by
      rw [hkb]
    have hlen1 : kb.1.length = (l.takeWhile isWordChar).length := by
      rw [h1, String.length_mk]
    have htk : (l.takeWhile isWordChar).length ≤ l.length :=
      (List.takeWhile_sublist _).length_le
    have hrest : (l.drop (l.takeWhile isWordChar).length).length
        = l.length - (l.takeWhile isWordChar).length := List.length_drop _ _
    have hlen2 : kb.2.length ≤ l.length - (l.takeWhile isWordChar).length := by
      rw [h2, String.length_mk]
      calc ((if (l.drop (l.takeWhile isWordChar).length).head? = some ' '
            then (l.drop (l.takeWhile isWordChar).length).tail
            else l.drop
              (l.takeWhile isWordChar).length).takeWhile
            (fun c => c != '\n')).length
          ≤ (if (l.drop (l.takeWhile isWordChar).length).head? = some ' '
            then (l.drop (l.takeWhile isWordChar).length).tail
            else l.drop (l.takeWhile isWordChar).length).length :=
            (List.takeWhile_sublist _).length_le
        _ ≤ l.length - (l.takeWhile isWordChar).length := by
            by_cases hsp : (l.drop (l.takeWhile isWordChar).length).head?
                = some ' '
            · rw [if_pos hsp, List.length_tail, hrest]
              omega
            · rw [if_neg hsp, hrest]
    omega

/-- C5 as stated is false on the code: the declared length counts the whole
frame content (kind, separating space, body), not the body alone: "4\nOK x"
yields declared_length 4 with a one-byte body. -/
theorem c5_counterexample :
    get_response_from_isabelle ("4\nOK x".toList)
      = .ok (⟨"OK", "x", some 4⟩, [])
    ∧ ("x" : String).length ≠ 4 := by
  constructor
  · rfl
  · decide

/-- C5 amended: when a frame carries a declared length, the kind and the body
together fit in it: the declared length is the byte length of the whole
decoded content, of which kind and body are disjoint parts (the body alone
equals it only minus the kind and any separating space, and may be shorter
still when the content held an embedded line feed). -/
theorem c5_declared_length_amended :
    ∀ (s : ByteStream) (r : IsabelleResponse) (s2 : ByteStream) (n : Nat),
      get_response_from_isabelle s = .ok (r, s2) → r.response_length = some n →
      r.response_type.length + r.response_body.length ≤ n := by
  intro s r s2 n h hlen
  simp only [get_response_from_isabelle] at h
  rcases hlp : length_prefix_match (readline s).1 with _ | m
  · simp only [hlp] at h
    rcases hpc : parse_content (readline s).1 with _ | kb
    · simp only [hpc] at h
      exact Except.noConfusion h
    · simp only [hpc] at h
      have hr : r = ⟨kb.1, kb.2, none⟩ := by
        have := (Except.ok.injEq _ _ ▸ h)
        exact congrArg Prod.fst this.symm
      rw [hr] at hlen
      exact Option.noConfusion hlen
  · simp only [hlp] at h
    rcases hre : readexactly m (readline s).2 with _ | pr
    · simp only [hre] at h
      exact Except.noConfusion h
    · simp only [hre] at h
      rcases hpc : parse_content pr.1 with _ | kb
      · simp only [hpc] at h
        exact Except.noConfusion h
      · simp only [hpc] at h
        have hr : r = ⟨kb.1, kb.2, some m⟩ := by
          have := (Except.ok.injEq _ _ ▸ h)
          exact congrArg Prod.fst this.symm
        have hnm : n = m := by
          rw [hr] at hlen
          simpa using hlen.symm
        subst hnm
        obtain ⟨hle, hpr1, _⟩ := readexactly_some hre
        have hplen : pr.1.length = n := by
          rw [hpr1, List.length_take]
          omega
        have := parse_content_length hpc
        rw [hr]
        simp only []
        omega

theorem c5_declared_length_amended_witness :
    ("OK" : String).length + ("x" : String).length ≤ 4 :=
  c5_declared_length_amended ("4\nOK x".toList) ⟨"OK", "x", some 4⟩ [] 4
    (by rfl) rfl

/-- C9 as stated is false on the code of isabelle_client/: the current frame
reader returns any word token as a frame kind; the line "FOO bar" yields an
ordinary frame whose kind FOO is outside the five-value set. -/
theorem c9_counterexample :
    get_response_from_isabelle ("FOO bar\n".toList)
      = .ok (⟨"FOO", "bar", none⟩, [])
    ∧ "FOO" ∉ ["OK", "FINISHED", "NOTE", "FAILED", "ERROR"] := by
  constructor
  · rfl
  · decide

/-- C9 amended: only the newer reader (src/isabelle_client/) enforces the
closed five-value kind set: every frame it returns carries one of the five
enum members, and a canonical line whose kind token is any other word fails
with the enum constructor's ValueError instead of producing a frame; the
current reader returns any word token as an ordinary frame. -/
theorem c9_closed_kinds_amended :
    (∀ (jloads : String → Option JVal) (s : ByteStream)
        (r : IsabelleResponseV2) (s2 : ByteStream),
        get_response_from_isabelle_v2 jloads s = .ok (r, s2) →
        r.response_type ∈ [IsabelleResponseType.OK, .FINISHED, .NOTE,
          .FAILED, .ERROR])
    ∧ (∀ (jloads : String → Option JVal) (k b : List Char)
        (rest : ByteStream),
        k ≠ [] → (∀ x ∈ k, isWordChar x = true) →
        ((k.headI).isDigit) = false → '\n' ∉ b →
        IsabelleResponseType.fromString (String.mk k) = none →
        get_response_from_isabelle_v2 jloads
            ((k ++ (if b.isEmpty then [] else ' ' :: b)) ++ '\n' :: rest)
          = .error (.unknownResponseType (String.mk k))) := by
  constructor
  · intro jloads s r s2 _
    cases r with
    | mk t b l => cases t <;> simp
  · intro jloads k b rest hk hw hd hb hfs
    rw [get_response_v2_canonical_line2 jloads k b rest hk hw hd hb, hfs]

theorem c9_closed_kinds_amended_witness :
    get_response_from_isabelle_v2 json_loads
        ((['F', 'O', 'O'] ++ (if (['b', 'a', 'r'] : List Char).isEmpty then []
          else ' ' :: ['b', 'a', 'r'])) ++ '\n' :: [])
      = .error (.unknownResponseType (String.mk ['F', 'O', 'O'])) :=
  c9_closed_kinds_amended.2 json_loads ['F', 'O', 'O'] ['b', 'a', 'r'] []
    (by decide) (by decide) (by decide) (by decide) (by decide)

/-- C4 as stated is false on the code: the newer reader decodes every
non-empty body with json.loads and a decoding failure raises instead of
falling back to the raw string: on the line "ERROR UNEXPECTED" (the body is
not valid JSON) it fails with JSONDecodeError rather than returning a frame
with the raw body. -/
theorem c4_counterexample :
    get_response_from_isabelle_v2 json_loads ("ERROR UNEXPECTED\n".toList)
      = .error (.jsonDecodeError "UNEXPECTED") := by rfl

/-- The newer reader on a canonical line whose kind token is one of the five
members: the body goes through json.loads exactly when non-empty. -/
theorem get_response_v2_canonical_known (jloads : String → Option JVal)
    (k b : List Char) (rest : ByteStream) (hk : k ≠ [])
    (hw : ∀ x ∈ k, isWordChar x = true) (hd : (k.headI).isDigit = false)
    (hb : '\n' ∉ b) (t : IsabelleResponseType)
    (hfs : IsabelleResponseType.fromString (String.mk k) = some t) :
    get_response_from_isabelle_v2 jloads
        ((k ++ (if b.isEmpty then [] else ' ' :: b)) ++ '\n' :: rest)
      = (if String.mk b = "" then .ok (⟨t, .raw (String.mk b), none⟩, rest)
         else
           match jloads (String.mk b) with
           | none => .error (.jsonDecodeError (String.mk b))
           | some v => .ok (⟨t, .json v, none⟩, rest)) := by
  rw [get_response_v2_canonical_line2 jloads k b rest hk hw hd hb, hfs]

/-- C4 amended: neither reader falls back to the raw string on a JSON
decoding failure.  The newer reader decodes every non-empty body with
json.loads and propagates its failure as an error; the current reader never
attempts JSON decoding and returns every body as the raw string; an empty
body part is returned as an empty body by both. -/
theorem c4_json_amended :
    (∀ (jloads : String → Option JVal) (t : IsabelleResponseType)
        (b : List Char) (rest : ByteStream),
        b ≠ [] → '\n' ∉ b → jloads (String.mk b) = none →
        get_response_from_isabelle_v2 jloads
            ((t.value.toList ++ (if b.isEmpty then [] else ' ' :: b))
              ++ '\n' :: rest)
          = .error (.jsonDecodeError (String.mk b)))
    ∧ (∀ (t : IsabelleResponseType) (b : List Char) (rest : ByteStream),
        '\n' ∉ b →
        get_response_from_isabelle
            ((t.value.toList ++ (if b.isEmpty then [] else ' ' :: b))
              ++ '\n' :: rest)
          = .ok (⟨t.value, String.mk b, none⟩, rest))
    ∧ (∀ (jloads : String → Option JVal) (t : IsabelleResponseType)
        (rest : ByteStream),
        get_response_from_isabelle_v2 jloads
            ((t.value.toList ++ (if ([] : List Char).isEmpty then []
              else ' ' :: ([] : List Char))) ++ '\n' :: rest)
          = .ok (⟨t, .raw "", none⟩, rest)) := by
  obtain hshape := value_shape
  refine ⟨?_, ?_, ?_⟩
  · intro jloads t b rest hbne hb hj
    obtain ⟨h1, h2, h3, _⟩ := hshape t
    have hfs : IsabelleResponseType.fromString (String.mk t.value.toList)
        = some t := by
      rw [mk_toList]
      exact fromString_value t
    rw [get_response_v2_canonical_known jloads t.value.toList b rest h1 h2 h3
      hb t hfs]
    have hbne2 : String.mk b ≠ "" := by
      intro he
      exact hbne (by simpa [String.ext_iff] using he)
    rw [if_neg hbne2, hj]
  · intro t b rest hb
    obtain ⟨h1, h2, h3, _⟩ := hshape t
    rw [get_response_canonical_line2 t.value.toList b rest h1 h2 h3 hb,
      mk_toList]
  · intro jloads t rest
    obtain ⟨h1, h2, h3, _⟩ := hshape t
    have hfs : IsabelleResponseType.fromString (String.mk t.value.toList)
        = some t := by
      rw [mk_toList]
      exact fromString_value t
    rw [get_response_v2_canonical_known jloads t.value.toList [] rest h1 h2 h3
      (by decide) t hfs]
    rw [if_pos (by decide)]

theorem c4_json_amended_witness :
    get_response_from_isabelle_v2 json_loads
        ((IsabelleResponseType.ERROR.value.toList
          ++ (if ("nope".toList : List Char).isEmpty then []
            else ' ' :: "nope".toList)) ++ '\n' :: [])
      = .error (.jsonDecodeError (String.mk "nope".toList)) :=
  c4_json_amended.1 json_loads .ERROR "nope".toList [] (by decide) (by decide)
    (by rfl)

/-- C10 as stated is false: the two frame-collection loops disagree, because
the loop of src/isabelle_client/socket_communication.py has no auth gating:
on the frame stream [FINISHED, OK, FINISHED] with the asynchronous final
kind set, the current loop yields all three frames while the newer loop stops
at the first one, so the exchanges have different lengths. -/
theorem c10_counterexample :
    collect_messages ["FINISHED", "FAILED", "ERROR"] "" false
        [⟨"FINISHED", "", none⟩, ⟨"OK", "", none⟩, ⟨"FINISHED", "", none⟩]
      = some [⟨"FINISHED", "", none⟩, ⟨"OK", "", none⟩,
          ⟨"FINISHED", "", none⟩]
    ∧ collect_messages_v2 [.FINISHED, .FAILED, .ERROR] none
        [⟨.FINISHED, .raw "", none⟩, ⟨.OK, .raw "", none⟩,
          ⟨.FINISHED, .raw "", none⟩]
      = some [⟨.FINISHED, .raw "", none⟩]
    ∧ ([⟨.FINISHED, .raw "", none⟩] : List IsabelleResponseV2).length
        ≠ ([⟨"FINISHED", "", none⟩, ⟨"OK", "", none⟩, ⟨"FINISHED", "", none⟩]
            : List IsabelleResponse).length := by
  refine ⟨by rfl, by rfl, by decide⟩

theorem value_ne_empty (t : IsabelleResponseType) : t.value ≠ "" := by
  cases t <;> decide

/-- C10 amended: the two frame-collection loops agree exactly on the runs the
server protocol produces: when the first frame of the stream is the OK
acknowledgement and OK is not itself a final kind, the loops take equally
long prefixes of their (kind-wise equal) frame streams, or both run off the
end together; on streams whose first final-kind frame precedes every OK
frame they differ, the newer loop stopping without auth gating. -/
theorem c10_equivalence_amended :
    ∀ (finalT : List IsabelleResponseType) (nf : List IsabelleResponse)
      (vf : List IsabelleResponseV2),
      nf.map IsabelleResponse.response_type
        = vf.map (fun f => f.response_type.value) →
      nf.head?.map IsabelleResponse.response_type = some "OK" →
      IsabelleResponseType.OK ∉ finalT →
      (collect_messages (finalT.map IsabelleResponseType.value) "" false nf
          = none
        ∧ collect_messages_v2 finalT none vf = none)
      ∨ ∃ kk,
          collect_messages (finalT.map IsabelleResponseType.value) "" false nf
            = some (nf.take kk)
          ∧ collect_messages_v2 finalT none vf = some (vf.take kk) := by
  intro finalT nf vf hmap hhead hOK
  cases nf with
  | nil => simp at hhead
  | cons f0 nf0 =>
    have hf0 : f0.response_type = "OK" := by simpa using hhead
    cases vf with
    | nil => simp at hmap
    | cons g0 vg0 =>
      have hg0v : f0.response_type = g0.response_type.value := by
        have hh := congrArg List.head? hmap
        simpa using hh
      have hg0 : g0.response_type = .OK := by
        refine value_injective _ _ ?_
        rw [← hg0v, hf0]
        rfl
      have htails : nf0.map IsabelleResponse.response_type
          = vg0.map (fun f => f.response_type.value) := by
        have ht := congrArg List.tail hmap
        simpa using ht
      have hstep1 : collect_messages (finalT.map IsabelleResponseType.value)
          "" false (f0 :: nf0)
          = (collect_messages (finalT.map IsabelleResponseType.value)
              "OK" false nf0).map (fun l => f0 :: l) := by
        simp only [collect_messages]
        rw [if_neg (by simp), hf0]
        simp
      have hstep2 : collect_messages_v2 finalT none (g0 :: vg0)
          = (collect_messages_v2 finalT (some IsabelleResponseType.OK)
              vg0).map (fun l => g0 :: l) := by
        simp only [collect_messages_v2]
        rw [if_neg (by simp), hg0]
      cases nf0 with
      | nil =>
        have hvg0 : vg0 = [] := by
          cases vg0 with
          | nil => rfl
          | cons g1 vg1 => simp at htails
        subst hvg0
        left
        constructor
        · rw [hstep1]
          have : collect_messages (finalT.map IsabelleResponseType.value)
              "OK" false [] = none := by
            simp only [collect_messages]
            rw [if_neg (by simp)]
          rw [this]
          rfl
        · rw [hstep2]
          have : collect_messages_v2 finalT
              (some IsabelleResponseType.OK) [] = none := by
            simp only [collect_messages_v2]
            rw [if_neg (by simp [hOK])]
          rw [this]
          rfl
      | cons f1 nf1 =>
        cases vg0 with
        | nil => simp at htails
        | cons g1 vg1 =>
          have hfg1 : f1.response_type = g1.response_type.value := by
            have hh := congrArg List.head? htails
            simpa using hh
          have htails2 : nf1.map IsabelleResponse.response_type
              = vg1.map (fun f => f.response_type.value) := by
            have ht := congrArg List.tail htails
            simpa using ht
          have hstep3 : collect_messages
              (finalT.map IsabelleResponseType.value) "OK" false (f1 :: nf1)
              = (collect_messages (finalT.map IsabelleResponseType.value)
                  f1.response_type true nf1).map (fun l => f1 :: l) := by
            simp only [collect_messages]
            rw [if_neg (by simp)]
            simp
          have hstep4 : collect_messages_v2 finalT
              (some IsabelleResponseType.OK) (g1 :: vg1)
              = (collect_messages_v2 finalT (some g1.response_type)
                  vg1).map (fun l => g1 :: l) := by
            simp only [collect_messages_v2]
            rw [if_neg (by simp [hOK])]
          rcases collect_corr nf1 vg1 g1.response_type htails2
            with ⟨ha, hb⟩ | ⟨kk, ha, hb⟩
          · left
            constructor
            · rw [hstep1, hstep3, hfg1, ha]
              rfl
            · rw [hstep2, hstep4, hb]
              rfl
          · right
            refine ⟨kk + 2, ?_, ?_⟩
            · rw [hstep1, hstep3, hfg1, ha]
              rfl
            · rw [hstep2, hstep4, hb]
              rfl

theorem c10_equivalence_amended_witness :
    (collect_messages
        ([IsabelleResponseType.FINISHED, .FAILED, .ERROR].map
          IsabelleResponseType.value) "" false
        [⟨"OK", "", none⟩, ⟨"FINISHED", "", none⟩] = none
      ∧ collect_messages_v2 [IsabelleResponseType.FINISHED, .FAILED, .ERROR]
          none [⟨.OK, .raw "", none⟩, ⟨.FINISHED, .raw "", none⟩] = none)
    ∨ ∃ kk,
        collect_messages
          ([IsabelleResponseType.FINISHED, .FAILED, .ERROR].map
            IsabelleResponseType.value) "" false
          [⟨"OK", "", none⟩, ⟨"FINISHED", "", none⟩]
          = some (([⟨"OK", "", none⟩, ⟨"FINISHED", "", none⟩]
              : List IsabelleResponse).take kk)
        ∧ collect_messages_v2 [IsabelleResponseType.FINISHED, .FAILED, .ERROR]
            none [⟨.OK, .raw "", none⟩, ⟨.FINISHED, .raw "", none⟩]
            = some (([⟨.OK, .raw "", none⟩, ⟨.FINISHED, .raw "", none⟩]
                : List IsabelleResponseV2).take kk) :=
  c10_equivalence_amended [.FINISHED, .FAILED, .ERROR]
    [⟨"OK", "", none⟩, ⟨"FINISHED", "", none⟩]
    [⟨.OK, .raw "", none⟩, ⟨.FINISHED, .raw "", none⟩] rfl rfl (by decide)
